import Mathlib

/-!
Verification of the `Interpolator` component of the `sci-file` repository
(`src/interpolator.rs`): a piecewise-linear interpolator over `f64` sample
points with scalar (`Interpolator<f64>`) or vector (`Interpolator<Vec<f64>>`)
values.

Embedding conventions:

* An `f64` value is modelled by `F64`: either NaN (`F64.nan`), negative zero
  (`F64.negZero`), or a finite value given by a rational (`F64.fin q`, with
  `F64.fin 0` playing the role of `+0.0`).  Infinities are not modelled (the
  spec excludes non-finite sample coordinates, and no claim involves them).
  Floating-point rounding is abstracted: arithmetic is exact rational
  arithmetic.  The sign of a zero *result* of arithmetic is not tracked
  (results are always `F64.fin`); only stored/compared values distinguish
  `-0.0` from `+0.0`, which is exactly what the IEEE-versus-total-order
  comparison discrepancy in the source depends on.  Division by zero is
  collapsed to `F64.nan`; it is unreachable in any claim considered here.
* Rust's `f64 < f64` / `f64 > f64` (IEEE semantics: false on NaN, `-0.0 ==
  +0.0`) are `F64.lt` / `F64.gt`; Rust's `f64::total_cmp` (total order with
  `-0.0 < +0.0` and NaN maximal, matching positive NaN, the only NaN we
  model) is `F64.total_cmp`.
* Out-of-range slice indexing and `usize` subtraction overflow are Rust
  panics; a computation that panics is modelled by the `RunResult.crash`
  outcome (helpers return `Option`, with `none` for a panic).
* `slice::binary_search_by` is modelled by `binary_search_by` below, following
  the loop of the Rust standard library (`left`/`right` bisection with early
  return on `Ordering::Equal`).  The structural `fuel` argument only bounds
  the number of loop iterations; `xs.length` iterations always suffice since
  `right - left` strictly decreases, so the fuel branch is unreachable from
  `binary_search_by`.
-/

/-- Model of `f64`: NaN, `-0.0`, or a finite value as an exact rational
(`F64.fin 0` is `+0.0`). -/
inductive F64 where
  | nan : F64
  | negZero : F64
  | fin (q : ℚ) : F64
deriving DecidableEq, Repr

/-- Numeric value of an `F64` (NaN, never used arithmetically before a NaN
test, is mapped to 0; `-0.0` has numeric value 0). -/
def F64.toRat : F64 → ℚ
  | .nan => 0
  | .negZero => 0
  | .fin q => q

/-- Rust `f64::is_nan`. -/
def F64.isNan : F64 → Bool
  | .nan => true
  | _ => false

/-- IEEE `<` on `f64`: false whenever an operand is NaN; `-0.0` and `+0.0`
compare equal. -/
def F64.lt (a b : F64) : Bool :=
  !a.isNan && !b.isNan && decide (a.toRat < b.toRat)

/-- IEEE `>` on `f64`: false whenever an operand is NaN; `-0.0` and `+0.0`
compare equal. -/
def F64.gt (a b : F64) : Bool :=
  !a.isNan && !b.isNan && decide (a.toRat > b.toRat)

/-- Three-way comparison of rationals. -/
def qcmp (a b : ℚ) : Ordering :=
  if a < b then .lt else if b < a then .gt else .eq

/-- Rust `f64::total_cmp` (IEEE-754 totalOrder restricted to the values we
model): `-0.0 < +0.0`, NaN (modelled as positive NaN) greater than every
other value. -/
def F64.total_cmp : F64 → F64 → Ordering
  | .nan, .nan => .eq
  | .nan, _ => .gt
  | _, .nan => .lt
  | .negZero, .negZero => .eq
  | .negZero, .fin q => if q < 0 then .gt else .lt
  | .fin p, .negZero => if p < 0 then .lt else .gt
  | .fin p, .fin q => qcmp p q

/-- `f64` subtraction (exact; NaN-propagating). -/
def F64.sub (a b : F64) : F64 :=
  if a.isNan || b.isNan then .nan else .fin (a.toRat - b.toRat)

/-- `f64` addition (exact; NaN-propagating). -/
def F64.add (a b : F64) : F64 :=
  if a.isNan || b.isNan then .nan else .fin (a.toRat + b.toRat)

/-- `f64` multiplication (exact; NaN-propagating). -/
def F64.mul (a b : F64) : F64 :=
  if a.isNan || b.isNan then .nan else .fin (a.toRat * b.toRat)

/-- `f64` division (exact; NaN-propagating; division by zero collapsed to
NaN — infinities are outside the model and unreachable in the claims). -/
def F64.div (a b : F64) : F64 :=
  if a.isNan || b.isNan || b.toRat = 0 then .nan else .fin (a.toRat / b.toRat)

/-- Result of `slice::binary_search_by`: `found i` is Rust's `Ok(i)`,
`notFound i` (the insertion point) is Rust's `Err(i)`. -/
inductive SearchResult where
  | found (i : Nat) : SearchResult
  | notFound (i : Nat) : SearchResult
deriving DecidableEq, Repr

/-- The bisection loop of `slice::binary_search_by` from the Rust standard
library: invariant `size = right - left`, probe at `mid = left + size / 2`,
narrowing to `[mid+1, right)` on `Less`, `[left, mid)` on `Greater`, early
`Ok(mid)` on `Equal`, and `Err(left)` once the window is empty.  `fuel`
structurally bounds the iterations; since `right - left` strictly decreases,
any `fuel ≥ right - left` gives the exact loop semantics. -/
def bsearchAux (f : Nat → Ordering) : Nat → Nat → Nat → SearchResult
  | 0, left, _right => .notFound left
  | fuel+1, left, right =>
    if left < right then
      match f (left + (right - left) / 2) with
      | .lt => bsearchAux f fuel (left + (right - left) / 2 + 1) right
      | .gt => bsearchAux f fuel left (left + (right - left) / 2)
      | .eq => .found (left + (right - left) / 2)
    else .notFound left

/-- `x_vals.binary_search_by(|val| val.total_cmp(&x))` as called by the
source: probed elements are always in range, so the `getD` default is
irrelevant. -/
def binary_search_by (xs : List F64) (x : F64) : SearchResult :=
  bsearchAux (fun i => F64.total_cmp (xs.getD i F64.nan) x) xs.length 0 xs.length

/-- `InterpolationError` from `src/interpolator.rs`: exactly two variants. -/
inductive InterpolationError where
  | OutOfBounds (x x_min x_max : F64) : InterpolationError
  | NaN : InterpolationError
deriving DecidableEq, Repr

/-- Outcome of running a fallible operation: a typed `Result::Ok`, a typed
`Result::Err`, or a Rust panic (out-of-range index / `usize` underflow). -/
inductive RunResult (A : Type) where
  | ok (val : A) : RunResult A
  | err (e : InterpolationError) : RunResult A
  | crash : RunResult A
deriving DecidableEq, Repr

/-- `sanity_check` from the source: NaN test first, then the IEEE bounds test
`x < x_vals[0] || x > x_vals[x_vals.len() - 1]`.  On an empty slice the
access `x_vals[0]` panics (`crash`). -/
def sanity_check (x : F64) (x_vals : List F64) : RunResult Unit :=
  if x.isNan then .err .NaN
  else if x_vals.isEmpty then .crash
  else
    let x0 := x_vals.getD 0 F64.nan
    let xl := x_vals.getD (x_vals.length - 1) F64.nan
    if x.lt x0 || x.gt xl then .err (.OutOfBounds x x0 xl)
    else .ok ()

/-- `interpolate_1d` from the source.  `none` models a panic: in the
`Err(i)` branch with `i = 0` the `usize` expression `i - 1` overflows, and
any out-of-range index into `x_vals`/`y_vals` panics. -/
def interpolate_1d (x : F64) (x_vals y_vals : List F64) : Option (F64 × F64) :=
  match binary_search_by x_vals x with
  | .found i =>
    match x_vals[i]?, y_vals[i]? with
    | some xi, some yi => some (xi, yi)
    | _, _ => none
  | .notFound i =>
    if i = 0 then none
    else
      match x_vals[i-1]?, x_vals[i]?, y_vals[i-1]?, y_vals[i]? with
      | some prev_x, some next_x, some prev_y, some next_y =>
        let delta := (x.sub prev_x).div (next_x.sub prev_x)
        some (next_x, (((F64.fin 1).sub delta).mul prev_y).add (delta.mul next_y))
      | _, _, _, _ => none

/-- The free n-dimensional `interpolate` from the source; the blend is mapped
over `prev_y.iter().zip(next_y.iter())`, which stops at the shorter vector. -/
def interpolate (x : F64) (x_vals : List F64) (y_vals : List (List F64)) :
    Option (F64 × List F64) :=
  match binary_search_by x_vals x with
  | .found i =>
    match x_vals[i]?, y_vals[i]? with
    | some xi, some yi => some (xi, yi)
    | _, _ => none
  | .notFound i =>
    if i = 0 then none
    else
      match x_vals[i-1]?, x_vals[i]?, y_vals[i-1]?, y_vals[i]? with
      | some prev_x, some next_x, some prev_y, some next_y =>
        let delta := (x.sub prev_x).div (next_x.sub prev_x)
        let y := (prev_y.zip next_y).map
          (fun p => (((F64.fin 1).sub delta).mul p.1).add (delta.mul p.2))
        some (next_x, y)
      | _, _, _, _ => none

/-- `Interpolator<T>` from the source: parallel lists of sample coordinates
and values. -/
structure Interpolator (T : Type) where
  x_vals : List F64 := []
  y_vals : List T := []
deriving DecidableEq, Repr

/-- `Interpolator::new()`: the empty table. -/
def Interpolator.new (T : Type) : Interpolator T := {}

/-- `Interpolator::init`: replaces both sequences with copies of the
arguments, unconditionally and without validation. -/
def Interpolator.init {T : Type} (_self : Interpolator T)
    (x_vals : List F64) (y_vals : List T) : Interpolator T :=
  { x_vals := x_vals, y_vals := y_vals }

/-- `Interpolator::<f64>::interpolate`: `sanity_check` then `interpolate_1d`,
with panics surfaced as `crash`. -/
def Interpolator.interpolate1 (self : Interpolator F64) (x : F64) :
    RunResult (F64 × F64) :=
  match sanity_check x self.x_vals with
  | .err e => .err e
  | .crash => .crash
  | .ok _ =>
    match interpolate_1d x self.x_vals self.y_vals with
    | some r => .ok r
    | none => .crash

/-- `Interpolator::<Vec<f64>>::interpolate`: `sanity_check` then the free
n-dimensional `interpolate`, with panics surfaced as `crash`. -/
def Interpolator.interpolateN (self : Interpolator (List F64)) (x : F64) :
    RunResult (F64 × List F64) :=
  match sanity_check x self.x_vals with
  | .err e => .err e
  | .crash => .crash
  | .ok _ =>
    match interpolate x self.x_vals self.y_vals with
    | some r => .ok r
    | none => .crash

/-- A table is strictly ascending in the `total_cmp` order (the ordering the
binary search uses; this is the sortedness the source assumes). -/
def sortedAscB : List F64 → Bool
  | [] => true
  | [_] => true
  | a :: b :: rest => decide (F64.total_cmp a b = Ordering.lt) && sortedAscB (b :: rest)

/-- Map the `ok` payload of a `RunResult`, preserving errors and crashes
(spec-side glue used to state the n-D/1-D refinement claim). -/
def mapRR {A B : Type} (g : A → B) : RunResult A → RunResult B
  | .ok v => .ok (g v)
  | .err e => .err e
  | .crash => .crash

/-! ### Order lemmas for `qcmp` and `F64.total_cmp` -/

theorem qcmp_eq_lt {a b : ℚ} : qcmp a b = .lt ↔ a < b := by
  unfold qcmp; split_ifs <;> simp_all <;> omega

theorem qcmp_eq_gt {a b : ℚ} : qcmp a b = .gt ↔ b < a := by
  unfold qcmp; split_ifs <;> simp_all <;> linarith

theorem qcmp_eq_eq {a b : ℚ} : qcmp a b = .eq ↔ a = b := by
  unfold qcmp; split_ifs <;> simp_all <;> linarith

theorem tc_eq_iff {a b : F64} : F64.total_cmp a b = .eq ↔ a = b := by
  cases a <;> cases b <;>
    simp [F64.total_cmp, qcmp_eq_eq] <;> split_ifs <;> simp_all

theorem tc_gt_iff {a b : F64} :
    F64.total_cmp a b = .gt ↔ F64.total_cmp b a = .lt := by
  cases a <;> cases b <;>
    simp [F64.total_cmp, qcmp_eq_lt, qcmp_eq_gt] <;> split_ifs <;> simp_all

theorem tc_lt_irrefl (a : F64) : F64.total_cmp a a ≠ .lt := by
  cases a <;> simp [F64.total_cmp, qcmp_eq_lt] <;> split_ifs <;> simp_all

theorem tc_lt_trans {a b c : F64} (hab : F64.total_cmp a b = .lt)
    (hbc : F64.total_cmp b c = .lt) : F64.total_cmp a c = .lt := by
  cases a <;> cases b <;> cases c <;>
    simp_all [F64.total_cmp, qcmp_eq_lt] <;> linarith

theorem tc_lt_toRat_le {a b : F64} (hb : b.isNan = false)
    (h : F64.total_cmp a b = .lt) : a.toRat ≤ b.toRat := by
  cases a <;> cases b <;>
    simp_all [F64.total_cmp, F64.isNan, F64.toRat, qcmp_eq_lt] <;> linarith

theorem toRat_lt_tc {a b : F64} (ha : a.isNan = false) (hb : b.isNan = false)
    (h : a.toRat < b.toRat) : F64.total_cmp a b = .lt := by
  cases a <;> cases b <;>
    simp_all [F64.total_cmp, F64.isNan, F64.toRat, qcmp_eq_lt] <;> linarith

/-! ### Sortedness -/

theorem sortedAscB_tail {a : F64} {xs : List F64}
    (h : sortedAscB (a :: xs) = true) : sortedAscB xs = true := by
  cases xs with
  | nil => rfl
  | cons b rest => simp [sortedAscB] at h; exact h.2

theorem sortedAscB_adj {xs : List F64} (h : sortedAscB xs = true) :
    ∀ k : Nat, k + 1 < xs.length →
      F64.total_cmp (xs.getD k F64.nan) (xs.getD (k+1) F64.nan) = .lt := by
  induction xs with
  | nil => intro k hk; simp at hk
  | cons a rest ih =>
    intro k hk
    cases rest with
    | nil => simp at hk
    | cons b rest2 =>
      simp only [sortedAscB, Bool.and_eq_true, decide_eq_true_eq] at h
      cases k with
      | zero => simpa using h.1
      | succ k =>
        simp only [List.getD_cons_succ]
        exact ih h.2 k (by simpa using hk)

theorem sortedAscB_pair {xs : List F64} (h : sortedAscB xs = true) :
    ∀ i j : Nat, i < j → j < xs.length →
      F64.total_cmp (xs.getD i F64.nan) (xs.getD j F64.nan) = .lt := by
  intro i j
  induction j with
  | zero => omega
  | succ j ih =>
    intro hij hj
    rcases Nat.lt_succ_iff_lt_or_eq.mp hij with hlt | heq
    · exact tc_lt_trans (ih hlt (by omega)) (sortedAscB_adj h j hj)
    · subst heq; exact sortedAscB_adj h i hj

/-! ### Specification of the binary-search loop -/

theorem bsearchAux_spec (f : Nat → Ordering) :
    ∀ (fuel left right : Nat), right - left ≤ fuel → left ≤ right →
    (∀ i, bsearchAux f fuel left right = .found i →
        left ≤ i ∧ i < right ∧ f i = .eq) ∧
    (∀ i, bsearchAux f fuel left right = .notFound i →
        left ≤ i ∧ i ≤ right ∧
        (left < i → f (i-1) = .lt) ∧ (i < right → f i = .gt)) := by
  intro fuel
  induction fuel with
  | zero =>
    intro left right hfuel hlr
    have : left = right := by omega
    subst this
    constructor
    · intro i hi; simp [bsearchAux] at hi
    · intro i hi
      simp only [bsearchAux, SearchResult.notFound.injEq] at hi
      subst hi
      exact ⟨Nat.le_refl _, Nat.le_refl _, by omega, by omega⟩
  | succ fuel ih =>
    intro left right hfuel hlr
    by_cases hlt : left < right
    · simp only [bsearchAux, if_pos hlt]
      set mid := left + (right - left) / 2 with hmid
      have hmid1 : left ≤ mid := by omega
      have hmid2 : mid < right := by omega
      cases hf : f mid with
      | lt =>
        have hrec := ih (mid + 1) right (by omega) (by omega)
        constructor
        · intro i hi
          obtain ⟨h1, h2, h3⟩ := hrec.1 i hi
          exact ⟨by omega, h2, h3⟩
        · intro i hi
          obtain ⟨h1, h2, h3, h4⟩ := hrec.2 i hi
          refine ⟨by omega, h2, ?_, h4⟩
          intro _
          rcases Nat.lt_or_ge (mid + 1) i with hgt | hle
          · exact h3 hgt
          · have : i = mid + 1 := by omega
            subst this
            simpa using hf
      | gt =>
        have hrec := ih left mid (by omega) (by omega)
        constructor
        · intro i hi
          obtain ⟨h1, h2, h3⟩ := hrec.1 i hi
          exact ⟨h1, by omega, h3⟩
        · intro i hi
          obtain ⟨h1, h2, h3, h4⟩ := hrec.2 i hi
          refine ⟨h1, by omega, h3, ?_⟩
          intro _
          rcases Nat.lt_or_ge i mid with hlt2 | hge
          · exact h4 hlt2
          · have : i = mid := by omega
            subst this
            exact hf
      | eq =>
        constructor
        · intro i hi
          simp only [SearchResult.found.injEq] at hi
          subst hi
          exact ⟨hmid1, hmid2, hf⟩
        · intro i hi; simp at hi
    · simp only [bsearchAux, if_neg hlt]
      constructor
      · intro i hi; simp at hi
      · intro i hi
        simp only [SearchResult.notFound.injEq] at hi
        subst hi
        exact ⟨Nat.le_refl _, hlr, by omega, by omega⟩

theorem binary_search_spec (xs : List F64) (x : F64) :
    (∀ i, binary_search_by xs x = .found i →
        i < xs.length ∧ F64.total_cmp (xs.getD i F64.nan) x = .eq) ∧
    (∀ i, binary_search_by xs x = .notFound i → i ≤ xs.length ∧
        (0 < i → F64.total_cmp (xs.getD (i-1) F64.nan) x = .lt) ∧
        (i < xs.length → F64.total_cmp (xs.getD i F64.nan) x = .gt)) := by
  have h := bsearchAux_spec (fun i => F64.total_cmp (xs.getD i F64.nan) x)
      xs.length 0 xs.length (by omega) (by omega)
  unfold binary_search_by
  constructor
  · intro i hi
    obtain ⟨_, h2, h3⟩ := h.1 i hi
    exact ⟨h2, h3⟩
  · intro i hi
    obtain ⟨_, h2, h3, h4⟩ := h.2 i hi
    exact ⟨h2, fun h0 => h3 h0, h4⟩

theorem binary_search_found_of_mem {xs : List F64} {x : F64} {m : Nat}
    (hs : sortedAscB xs = true) (hm : m < xs.length)
    (hx : xs.getD m F64.nan = x) : binary_search_by xs x = .found m := by
  obtain ⟨hfound, hnot⟩ := binary_search_spec xs x
  cases hres : binary_search_by xs x with
  | found i =>
    obtain ⟨hi, heq⟩ := hfound i hres
    have hxi : xs.getD i F64.nan = x := tc_eq_iff.mp heq
    rcases Nat.lt_trichotomy i m with hlt | heq2 | hgt
    · have h2 := sortedAscB_pair hs i m hlt hm
      rw [hxi, hx] at h2
      exact absurd h2 (tc_lt_irrefl x)
    · rw [heq2]
    · have h2 := sortedAscB_pair hs m i hgt hi
      rw [hxi, hx] at h2
      exact absurd h2 (tc_lt_irrefl x)
  | notFound i =>
    exfalso
    obtain ⟨hi, hlow, hhigh⟩ := hnot i hres
    rcases Nat.lt_or_ge m i with hlt | hge
    · have h1 := hlow (by omega)
      rcases Nat.lt_or_ge m (i-1) with hlt2 | hge2
      · have h2 := sortedAscB_pair hs m (i-1) hlt2 (by omega)
        rw [hx] at h2
        exact tc_lt_irrefl x (tc_lt_trans h2 h1)
      · have : i - 1 = m := by omega
        rw [this, hx] at h1
        exact tc_lt_irrefl x h1
    · have h1 := hhigh (by omega)
      have h1' : F64.total_cmp x (xs.getD i F64.nan) = .lt := tc_gt_iff.mp h1
      rcases Nat.lt_or_ge i m with hlt2 | hge2
      · have h2 := sortedAscB_pair hs i m hlt2 hm
        rw [hx] at h2
        exact tc_lt_irrefl x (tc_lt_trans h1' h2)
      · have : i = m := by omega
        rw [this, hx] at h1'
        exact tc_lt_irrefl x h1'

theorem binary_search_bracket {xs : List F64} {x : F64} {k : Nat}
    (hs : sortedAscB xs = true) (hk : k + 1 < xs.length)
    (hlo : F64.total_cmp (xs.getD k F64.nan) x = .lt)
    (hhi : F64.total_cmp x (xs.getD (k+1) F64.nan) = .lt) :
    binary_search_by xs x = .notFound (k+1) := by
  obtain ⟨hfound, hnot⟩ := binary_search_spec xs x
  cases hres : binary_search_by xs x with
  | found i =>
    exfalso
    obtain ⟨hi, heq⟩ := hfound i hres
    have hxi : xs.getD i F64.nan = x := tc_eq_iff.mp heq
    rcases Nat.lt_or_ge k i with hlt | hge
    · rcases Nat.lt_or_ge (k+1) i with hlt2 | hge2
      · have h2 := sortedAscB_pair hs (k+1) i hlt2 hi
        rw [hxi] at h2
        exact tc_lt_irrefl x (tc_lt_trans hhi h2)
      · have heqi : i = k + 1 := by omega
        subst heqi
        rw [hxi] at hhi
        exact tc_lt_irrefl x hhi
    · rcases Nat.lt_or_ge i k with hlt2 | hge2
      · have h2 := sortedAscB_pair hs i k hlt2 (by omega)
        rw [hxi] at h2
        exact tc_lt_irrefl x (tc_lt_trans h2 hlo)
      · have heqi : i = k := by omega
        subst heqi
        rw [hxi] at hlo
        exact tc_lt_irrefl x hlo
  | notFound i =>
    obtain ⟨hi, hlow, hhigh⟩ := hnot i hres
    rcases Nat.lt_trichotomy i (k+1) with hlt | heq | hgt
    · exfalso
      have h1 := hhigh (by omega)
      have h1' : F64.total_cmp x (xs.getD i F64.nan) = .lt := tc_gt_iff.mp h1
      rcases Nat.lt_or_ge i k with hlt2 | hge2
      · have h2 := sortedAscB_pair hs i k hlt2 (by omega)
        exact tc_lt_irrefl _ (tc_lt_trans (tc_lt_trans h1' h2) hlo)
      · have heqi : i = k := by omega
        rw [heqi] at h1'
        exact tc_lt_irrefl _ (tc_lt_trans hlo h1')
    · rw [heq]
    · exfalso
      have h1 := hlow (by omega)
      rcases Nat.lt_or_ge (k+1) (i-1) with hlt2 | hge2
      · have h2 := sortedAscB_pair hs (k+1) (i-1) hlt2 (by omega)
        exact tc_lt_irrefl x (tc_lt_trans hhi (tc_lt_trans h2 h1))
      · have : i - 1 = k + 1 := by omega
        rw [this] at h1
        exact tc_lt_irrefl x (tc_lt_trans hhi h1)

/-! ### IEEE bounds-check helpers -/

theorem ieee_lt_false {x b : F64} (hnan : x.isNan = false)
    (h : F64.total_cmp b x ≠ .gt) : x.lt b = false := by
  cases hb : b.isNan with
  | true => simp [F64.lt, hb]
  | false =>
    have hnot : ¬ (x.toRat < b.toRat) := fun hcon =>
      h (tc_gt_iff.mpr (toRat_lt_tc hnan hb hcon))
    simp [F64.lt, hnan, hb, hnot]

theorem ieee_gt_false {x b : F64} (hnan : x.isNan = false)
    (h : F64.total_cmp x b ≠ .gt) : x.gt b = false := by
  cases hb : b.isNan with
  | true => simp [F64.gt, hb]
  | false =>
    have hnot : ¬ (b.toRat < x.toRat) := fun hcon =>
      h (tc_gt_iff.mpr (toRat_lt_tc hb hnan hcon))
    simp [F64.gt, hnan, hb, hnot]

theorem sanity_check_pass {x : F64} {xs : List F64} (hne : xs ≠ [])
    (hnan : x.isNan = false)
    (hlo : F64.total_cmp (xs.getD 0 F64.nan) x ≠ .gt)
    (hhi : F64.total_cmp x (xs.getD (xs.length - 1) F64.nan) ≠ .gt) :
    sanity_check x xs = .ok () := by
  have hemp : xs.isEmpty = false := by
    cases xs with
    | nil => exact absurd rfl hne
    | cons a rest => rfl
  simp only [sanity_check, hnan, hemp, Bool.false_eq_true, if_false]
  rw [ieee_lt_false hnan hlo, ieee_gt_false hnan hhi]
  simp

theorem sanity_check_oob {x : F64} {xs : List F64} (hne : xs ≠ [])
    (hnan : x.isNan = false)
    (h : x.lt (xs.getD 0 F64.nan) = true ∨
         x.gt (xs.getD (xs.length - 1) F64.nan) = true) :
    sanity_check x xs =
      .err (.OutOfBounds x (xs.getD 0 F64.nan)
        (xs.getD (xs.length - 1) F64.nan)) := by
  have hemp : xs.isEmpty = false := by
    cases xs with
    | nil => exact absurd rfl hne
    | cons a rest => rfl
  have hcond : (x.lt (xs.getD 0 F64.nan) ||
      x.gt (xs.getD (xs.length - 1) F64.nan)) = true := by
    rcases h with h | h
    · rw [h, Bool.true_or]
    · rw [h, Bool.or_true]
  simp only [sanity_check, hnan, hemp, Bool.false_eq_true, if_false, hcond, if_true]

/-! ### Claim theorems -/

/-- C10: `init` succeeds for every pair of input sequences, of any lengths,
matched or not, sorted or not, and afterwards the table's `x_vals` and
`y_vals` are exactly copies of the given sequences, replacing any previous
contents; no validation happens at `init` time. -/
theorem claim_c10 : ∀ (T : Type) (t : Interpolator T)
    (xs : List F64) (ys : List T),
    (t.init xs ys).x_vals = xs ∧ (t.init xs ys).y_vals = ys :=
  fun _ _ _ _ => ⟨rfl, rfl⟩

/-- C4: for a NaN query, both the scalar and the vector `interpolate` fail
with the `NaN` error regardless of the table — including an empty one —
because the NaN test runs before any bounds check or table access; the
result is never `OutOfBounds` and the search is never reached. -/
theorem claim_c4 :
    (∀ (t : Interpolator F64) (x : F64), x.isNan = true →
       t.interpolate1 x = .err .NaN) ∧
    (∀ (t : Interpolator (List F64)) (x : F64), x.isNan = true →
       t.interpolateN x = .err .NaN) := by
  constructor
  · intro t x hx
    simp [Interpolator.interpolate1, sanity_check, hx]
  · intro t x hx
    simp [Interpolator.interpolateN, sanity_check, hx]

/-- Witness for C4 at the concrete input `x = NaN` against the empty table. -/
theorem claim_c4_witness :
    F64.nan.isNan = true ∧
    Interpolator.interpolate1 ⟨[], []⟩ F64.nan = .err .NaN ∧
    Interpolator.interpolateN ⟨[], []⟩ F64.nan = .err .NaN :=
  ⟨rfl, claim_c4.1 ⟨[], []⟩ F64.nan rfl, claim_c4.2 ⟨[], []⟩ F64.nan rfl⟩

/-- C3: for a non-NaN query on a non-empty table with `x < x_vals[0]` or
`x > x_vals[len-1]` under IEEE comparison, both the scalar and the vector
`interpolate` fail with `OutOfBounds` carrying exactly the queried `x`,
`x_min = x_vals[0]` and `x_max = x_vals[len-1]`; no extrapolation happens. -/
theorem claim_c3 :
    (∀ (t : Interpolator F64) (x : F64), t.x_vals ≠ [] → x.isNan = false →
       (x.lt (t.x_vals.getD 0 F64.nan) = true ∨
        x.gt (t.x_vals.getD (t.x_vals.length - 1) F64.nan) = true) →
       t.interpolate1 x = .err (.OutOfBounds x (t.x_vals.getD 0 F64.nan)
         (t.x_vals.getD (t.x_vals.length - 1) F64.nan))) ∧
    (∀ (t : Interpolator (List F64)) (x : F64), t.x_vals ≠ [] →
       x.isNan = false →
       (x.lt (t.x_vals.getD 0 F64.nan) = true ∨
        x.gt (t.x_vals.getD (t.x_vals.length - 1) F64.nan) = true) →
       t.interpolateN x = .err (.OutOfBounds x (t.x_vals.getD 0 F64.nan)
         (t.x_vals.getD (t.x_vals.length - 1) F64.nan))) := by
  constructor
  · intro t x hne hnan h
    simp [Interpolator.interpolate1, sanity_check_oob hne hnan h]
  · intro t x hne hnan h
    simp [Interpolator.interpolateN, sanity_check_oob hne hnan h]

/-- Witness for C3 at the spec's concrete scenario: `x_vals = [1..5]`,
query `x = 6` (and `x = 0` for the low side on the vector table). -/
theorem claim_c3_witness :
    Interpolator.interpolate1
        ⟨[F64.fin 1, F64.fin 2, F64.fin 3, F64.fin 4, F64.fin 5],
         [F64.fin 2, F64.fin 4, F64.fin 6, F64.fin 8, F64.fin 10]⟩ (F64.fin 6) =
      .err (.OutOfBounds (F64.fin 6) (F64.fin 1) (F64.fin 5)) ∧
    Interpolator.interpolateN
        ⟨[F64.fin 1, F64.fin 2, F64.fin 3, F64.fin 4, F64.fin 5],
         [[F64.fin 2], [F64.fin 4], [F64.fin 6], [F64.fin 8], [F64.fin 10]]⟩
        (F64.fin 0) =
      .err (.OutOfBounds (F64.fin 0) (F64.fin 1) (F64.fin 5)) :=
  ⟨claim_c3.1 _ (F64.fin 6) (by decide) rfl (Or.inr (by decide)),
   claim_c3.2 _ (F64.fin 0) (by decide) rfl (Or.inl (by decide))⟩

/-- C7: on an empty table (`x_vals = []`) a non-NaN query never produces a
typed result: the bounds check's access `x_vals[0]` is out of range, a
panic rather than an error value; and the error type has no `EmptyTable`
variant — its only constructors are `OutOfBounds` and `NaN`. -/
theorem claim_c7 :
    (∀ (t : Interpolator F64) (x : F64), t.x_vals = [] → x.isNan = false →
       t.interpolate1 x = .crash) ∧
    (∀ (t : Interpolator (List F64)) (x : F64), t.x_vals = [] →
       x.isNan = false → t.interpolateN x = .crash) ∧
    (∀ e : InterpolationError,
       e = .NaN ∨ ∃ a b c, e = .OutOfBounds a b c) := by
  refine ⟨?_, ?_, ?_⟩
  · intro t x hemp hnan
    simp [Interpolator.interpolate1, sanity_check, hemp, hnan]
  · intro t x hemp hnan
    simp [Interpolator.interpolateN, sanity_check, hemp, hnan]
  · intro e
    cases e with
    | NaN => exact Or.inl rfl
    | OutOfBounds a b c => exact Or.inr ⟨a, b, c, rfl⟩

/-- Witness for C7 at the concrete empty table with query `x = 2`. -/
theorem claim_c7_witness :
    Interpolator.interpolate1 ⟨[], []⟩ (F64.fin 2) = .crash ∧
    Interpolator.interpolateN ⟨[], []⟩ (F64.fin 2) = .crash :=
  ⟨claim_c7.1 ⟨[], []⟩ (F64.fin 2) rfl rfl,
   claim_c7.2.1 ⟨[], []⟩ (F64.fin 2) rfl rfl⟩

/-- C6: the spec's concrete scenarios.  Scalar table `x = [1,2,3,4,5]`,
`y = [2,4,6,8,10]`, query `x = 2.5` gives `Ok((3.0, 5.0))`; the vector table
with per-sample vectors `[2,3,1],[4,5,2],[6,7,3],[8,9,4],[10,11,5]` at the
same query gives `Ok((3.0, [5.0, 6.0, 2.5]))`. -/
theorem claim_c6 :
    Interpolator.interpolate1
        ⟨[F64.fin 1, F64.fin 2, F64.fin 3, F64.fin 4, F64.fin 5],
         [F64.fin 2, F64.fin 4, F64.fin 6, F64.fin 8, F64.fin 10]⟩
        (F64.fin (5/2)) = .ok (F64.fin 3, F64.fin 5) ∧
    Interpolator.interpolateN
        ⟨[F64.fin 1, F64.fin 2, F64.fin 3, F64.fin 4, F64.fin 5],
         [[F64.fin 2, F64.fin 3, F64.fin 1], [F64.fin 4, F64.fin 5, F64.fin 2],
          [F64.fin 6, F64.fin 7, F64.fin 3], [F64.fin 8, F64.fin 9, F64.fin 4],
          [F64.fin 10, F64.fin 11, F64.fin 5]]⟩
        (F64.fin (5/2)) =
      .ok (F64.fin 3, [F64.fin 5, F64.fin 6, F64.fin (5/2)]) := by
  constructor
  · norm_num [Interpolator.interpolate1, sanity_check, interpolate_1d,
      binary_search_by, bsearchAux, F64.total_cmp, qcmp, F64.lt, F64.gt,
      F64.isNan, F64.toRat, F64.sub, F64.add, F64.mul, F64.div]
  · norm_num [Interpolator.interpolateN, sanity_check, interpolate,
      binary_search_by, bsearchAux, F64.total_cmp, qcmp, F64.lt, F64.gt,
      F64.isNan, F64.toRat, F64.sub, F64.add, F64.mul, F64.div]

theorem getElem?_eq_some_getD {α : Type} {xs : List α} {i : Nat} (d : α)
    (h : i < xs.length) : xs[i]? = some (xs.getD i d) := by
  rw [List.getElem?_eq_getElem h, List.getD_eq_getElem xs d h]

/-- In a sorted table, a value stored at index `i` is within the table's
total-order range, so the IEEE bounds check cannot reject it. -/
theorem in_range_of_mem {xs : List F64} {x : F64} {i : Nat}
    (hs : sortedAscB xs = true) (hi : i < xs.length)
    (hx : xs.getD i F64.nan = x) :
    F64.total_cmp (xs.getD 0 F64.nan) x ≠ .gt ∧
    F64.total_cmp x (xs.getD (xs.length - 1) F64.nan) ≠ .gt := by
  constructor
  · rcases Nat.eq_zero_or_pos i with h0 | h0
    · subst h0
      rw [hx, tc_eq_iff.mpr rfl]
      simp
    · have h2 := sortedAscB_pair hs 0 i h0 hi
      rw [hx] at h2
      rw [h2]
      simp
  · rcases Nat.lt_or_ge i (xs.length - 1) with h0 | h0
    · have h2 := sortedAscB_pair hs i (xs.length - 1) h0 (by omega)
      rw [hx] at h2
      rw [h2]
      simp
    · have heqi : i = xs.length - 1 := by omega
      subst heqi
      rw [hx, tc_eq_iff.mpr rfl]
      simp

/-- C2 (amended): for a table sorted strictly ascending in total order, with
a `y` entry present at the matching index, a non-NaN query that is equal
bit-for-bit (total-order equality) to `x_vals[i]` returns
`Ok((x_vals[i], y_vals[i]))` with the stored value unchanged — no
interpolation arithmetic is performed (scalar and vector cases). -/
theorem claim_c2 :
    (∀ (t : Interpolator F64) (x : F64) (i : Nat),
       sortedAscB t.x_vals = true → i < t.x_vals.length →
       i < t.y_vals.length → x.isNan = false →
       t.x_vals.getD i F64.nan = x →
       t.interpolate1 x =
         .ok (t.x_vals.getD i F64.nan, t.y_vals.getD i F64.nan)) ∧
    (∀ (t : Interpolator (List F64)) (x : F64) (i : Nat),
       sortedAscB t.x_vals = true → i < t.x_vals.length →
       i < t.y_vals.length → x.isNan = false →
       t.x_vals.getD i F64.nan = x →
       t.interpolateN x =
         .ok (t.x_vals.getD i F64.nan, t.y_vals.getD i [])) := by
  constructor
  · intro t x i hs hi hiy hnan hx
    have hne : t.x_vals ≠ [] := List.ne_nil_of_length_pos (by omega)
    obtain ⟨h0, hlast⟩ := in_range_of_mem hs hi hx
    have hsan := sanity_check_pass hne hnan h0 hlast
    have hsearch := binary_search_found_of_mem hs hi hx
    unfold Interpolator.interpolate1
    rw [hsan]
    unfold interpolate_1d
    rw [hsearch]
    simp only [getElem?_eq_some_getD F64.nan hi, getElem?_eq_some_getD F64.nan hiy]
  · intro t x i hs hi hiy hnan hx
    have hne : t.x_vals ≠ [] := List.ne_nil_of_length_pos (by omega)
    obtain ⟨h0, hlast⟩ := in_range_of_mem hs hi hx
    have hsan := sanity_check_pass hne hnan h0 hlast
    have hsearch := binary_search_found_of_mem hs hi hx
    unfold Interpolator.interpolateN
    rw [hsan]
    unfold interpolate
    rw [hsearch]
    simp only [getElem?_eq_some_getD F64.nan hi, getElem?_eq_some_getD [] hiy]

/-- C2 counterexample: the claim as stated quantifies over *every* non-empty
table, including unsorted ones.  On the unsorted table `x_vals = [1, 3, 2]`,
`y_vals = [10, 30, 7]`, the query `x = 2` is non-NaN, passes the bounds
check, and is bit-for-bit equal to `x_vals[2]`, yet the binary search misses
the exact match and the call returns `Ok((3, 20))` — an interpolated value —
instead of `Ok((x_vals[2], y_vals[2])) = Ok((2, 7))`. -/
theorem claim_c2_counterexample :
    (F64.fin 2).isNan = false ∧
    sanity_check (F64.fin 2) [F64.fin 1, F64.fin 3, F64.fin 2] = .ok () ∧
    List.getD [F64.fin 1, F64.fin 3, F64.fin 2] 2 F64.nan = F64.fin 2 ∧
    Interpolator.interpolate1
        ⟨[F64.fin 1, F64.fin 3, F64.fin 2], [F64.fin 10, F64.fin 30, F64.fin 7]⟩
        (F64.fin 2) = .ok (F64.fin 3, F64.fin 20) ∧
    (RunResult.ok (F64.fin 3, F64.fin 20) : RunResult (F64 × F64)) ≠
      .ok (F64.fin 2, F64.fin 7) := by
  refine ⟨rfl, by decide, rfl, ?_, by decide⟩
  norm_num [Interpolator.interpolate1, sanity_check, interpolate_1d,
    binary_search_by, bsearchAux, F64.total_cmp, qcmp, F64.lt, F64.gt,
    F64.isNan, F64.toRat, F64.sub, F64.add, F64.mul, F64.div]

/-- Witness for C2 (amended) on the sorted table `x = [1,2,3]`,
`y = [10,20,30]` (scalar) and `y = [[10],[20],[30]]` (vector) at the exact
query `x = 2`, matching index 1. -/
theorem claim_c2_witness :
    Interpolator.interpolate1
        ⟨[F64.fin 1, F64.fin 2, F64.fin 3], [F64.fin 10, F64.fin 20, F64.fin 30]⟩
        (F64.fin 2) = .ok (F64.fin 2, F64.fin 20) ∧
    Interpolator.interpolateN
        ⟨[F64.fin 1, F64.fin 2, F64.fin 3], [[F64.fin 10], [F64.fin 20], [F64.fin 30]]⟩
        (F64.fin 2) = .ok (F64.fin 2, [F64.fin 20]) :=
  ⟨claim_c2.1 _ (F64.fin 2) 1 (by decide) (by decide) (by decide) rfl (by decide),
   claim_c2.2 _ (F64.fin 2) 1 (by decide) (by decide) (by decide) rfl (by decide)⟩

theorem getD_zip_map {g : F64 × F64 → F64} {as bs : List F64} {j : Nat}
    (ha : j < as.length) (hb : j < bs.length) :
    ((as.zip bs).map g).getD j F64.nan = g (as.getD j F64.nan, bs.getD j F64.nan) := by
  have hz : j < (as.zip bs).length := by rw [List.length_zip]; omega
  have hm : j < ((as.zip bs).map g).length := by simpa using hz
  rw [List.getD_eq_getElem _ _ hm, List.getD_eq_getElem as F64.nan ha,
    List.getD_eq_getElem bs F64.nan hb, List.getElem_map, List.getElem_zip]

/-- In a sorted table, a query lying strictly between the consecutive samples
at `k` and `k+1` (total order) is within the table's total-order range. -/
theorem in_range_of_bracket {xs : List F64} {x : F64} {k : Nat}
    (hs : sortedAscB xs = true) (hk : k + 1 < xs.length)
    (hlo : F64.total_cmp (xs.getD k F64.nan) x = .lt)
    (hhi : F64.total_cmp x (xs.getD (k+1) F64.nan) = .lt) :
    F64.total_cmp (xs.getD 0 F64.nan) x ≠ .gt ∧
    F64.total_cmp x (xs.getD (xs.length - 1) F64.nan) ≠ .gt := by
  constructor
  · rcases Nat.eq_zero_or_pos k with hk0 | hk0
    · subst hk0
      rw [hlo]
      simp
    · have h2 := sortedAscB_pair hs 0 k hk0 (by omega)
      rw [tc_lt_trans h2 hlo]
      simp
  · rcases Nat.lt_or_ge (k+1) (xs.length - 1) with hlt | hge
    · have h2 := sortedAscB_pair hs (k+1) (xs.length - 1) hlt (by omega)
      rw [tc_lt_trans hhi h2]
      simp
    · have heqk : k + 1 = xs.length - 1 := by omega
      rw [← heqk, hhi]
      simp

/-- C1: for a non-empty ascending table and a non-NaN query `x` strictly
between consecutive samples `x_lo = x_vals[k] < x < x_hi = x_vals[k+1]`,
`interpolate` returns `Ok` with matched coordinate `x_hi` (the upper
bracketing sample, not `x`) and value `(1-d)*y_lo + d*y_hi` where
`d = (x - x_lo)/(x_hi - x_lo)`; in the vector-valued case the same blend
with the same `d` is applied to every component. -/
theorem claim_c1 :
    (∀ (t : Interpolator F64) (x : F64) (k : Nat),
       sortedAscB t.x_vals = true → t.y_vals.length = t.x_vals.length →
       x.isNan = false → k + 1 < t.x_vals.length →
       F64.total_cmp (t.x_vals.getD k F64.nan) x = .lt →
       F64.total_cmp x (t.x_vals.getD (k+1) F64.nan) = .lt →
       t.interpolate1 x =
         .ok (t.x_vals.getD (k+1) F64.nan,
           (((F64.fin 1).sub
               ((x.sub (t.x_vals.getD k F64.nan)).div
                 ((t.x_vals.getD (k+1) F64.nan).sub (t.x_vals.getD k F64.nan)))).mul
             (t.y_vals.getD k F64.nan)).add
           (((x.sub (t.x_vals.getD k F64.nan)).div
               ((t.x_vals.getD (k+1) F64.nan).sub (t.x_vals.getD k F64.nan))).mul
             (t.y_vals.getD (k+1) F64.nan)))) ∧
    (∀ (t : Interpolator (List F64)) (x : F64) (k m : Nat),
       sortedAscB t.x_vals = true → t.y_vals.length = t.x_vals.length →
       (∀ y ∈ t.y_vals, y.length = m) →
       x.isNan = false → k + 1 < t.x_vals.length →
       F64.total_cmp (t.x_vals.getD k F64.nan) x = .lt →
       F64.total_cmp x (t.x_vals.getD (k+1) F64.nan) = .lt →
       ∃ v, t.interpolateN x = .ok (t.x_vals.getD (k+1) F64.nan, v) ∧
         v.length = m ∧
         ∀ j, j < m → v.getD j F64.nan =
           (((F64.fin 1).sub
               ((x.sub (t.x_vals.getD k F64.nan)).div
                 ((t.x_vals.getD (k+1) F64.nan).sub (t.x_vals.getD k F64.nan)))).mul
             ((t.y_vals.getD k []).getD j F64.nan)).add
           (((x.sub (t.x_vals.getD k F64.nan)).div
               ((t.x_vals.getD (k+1) F64.nan).sub (t.x_vals.getD k F64.nan))).mul
             ((t.y_vals.getD (k+1) []).getD j F64.nan))) := by
  constructor
  · intro t x k hs hlen hnan hk hlo hhi
    have hne : t.x_vals ≠ [] := List.ne_nil_of_length_pos (by omega)
    obtain ⟨h0, hlast⟩ := in_range_of_bracket hs hk hlo hhi
    have hsan := sanity_check_pass hne hnan h0 hlast
    have hsearch := binary_search_bracket hs hk hlo hhi
    unfold Interpolator.interpolate1
    rw [hsan]
    unfold interpolate_1d
    rw [hsearch]
    simp only [if_neg (Nat.succ_ne_zero k), Nat.add_sub_cancel,
      getElem?_eq_some_getD F64.nan (show k < t.x_vals.length by omega),
      getElem?_eq_some_getD F64.nan hk,
      getElem?_eq_some_getD F64.nan (show k < t.y_vals.length by omega),
      getElem?_eq_some_getD F64.nan (show k + 1 < t.y_vals.length by omega)]
  · intro t x k m hs hlen hm hnan hk hlo hhi
    have hne : t.x_vals ≠ [] := List.ne_nil_of_length_pos (by omega)
    obtain ⟨h0, hlast⟩ := in_range_of_bracket hs hk hlo hhi
    have hsan := sanity_check_pass hne hnan h0 hlast
    have hsearch := binary_search_bracket hs hk hlo hhi
    have hky : k < t.y_vals.length := by omega
    have hk1y : k + 1 < t.y_vals.length := by omega
    have hmem_lo : (t.y_vals.getD k []) ∈ t.y_vals := by
      rw [List.getD_eq_getElem t.y_vals [] hky]
      exact List.getElem_mem hky
    have hmem_hi : (t.y_vals.getD (k+1) []) ∈ t.y_vals := by
      rw [List.getD_eq_getElem t.y_vals [] hk1y]
      exact List.getElem_mem hk1y
    have hlen_lo : (t.y_vals.getD k []).length = m := hm _ hmem_lo
    have hlen_hi : (t.y_vals.getD (k+1) []).length = m := hm _ hmem_hi
    refine ⟨((t.y_vals.getD k []).zip (t.y_vals.getD (k+1) [])).map
        (fun p => (((F64.fin 1).sub
            ((x.sub (t.x_vals.getD k F64.nan)).div
              ((t.x_vals.getD (k+1) F64.nan).sub (t.x_vals.getD k F64.nan)))).mul p.1).add
          (((x.sub (t.x_vals.getD k F64.nan)).div
              ((t.x_vals.getD (k+1) F64.nan).sub (t.x_vals.getD k F64.nan))).mul p.2)),
      ?_, ?_, ?_⟩
    · unfold Interpolator.interpolateN
      rw [hsan]
      unfold interpolate
      rw [hsearch]
      simp only [if_neg (Nat.succ_ne_zero k), Nat.add_sub_cancel,
        getElem?_eq_some_getD F64.nan (show k < t.x_vals.length by omega),
        getElem?_eq_some_getD F64.nan hk,
        getElem?_eq_some_getD [] hky,
        getElem?_eq_some_getD [] hk1y]
    · rw [List.length_map, List.length_zip, hlen_lo, hlen_hi]
      omega
    · intro j hj
      exact getD_zip_map (by omega) (by omega)

/-- Witness for C1 on the table `x = [0, 10]`, scalar `y = [0, 100]` and
vector `y = [[0], [100]]`, at the bracketed query `x = 5` with `k = 0`. -/
theorem claim_c1_witness :
    (Interpolator.interpolate1 ⟨[F64.fin 0, F64.fin 10], [F64.fin 0, F64.fin 100]⟩
        (F64.fin 5) =
      .ok (List.getD [F64.fin 0, F64.fin 10] 1 F64.nan,
        (((F64.fin 1).sub
            (((F64.fin 5).sub (List.getD [F64.fin 0, F64.fin 10] 0 F64.nan)).div
              ((List.getD [F64.fin 0, F64.fin 10] 1 F64.nan).sub
                (List.getD [F64.fin 0, F64.fin 10] 0 F64.nan)))).mul
          (List.getD [F64.fin 0, F64.fin 100] 0 F64.nan)).add
        ((((F64.fin 5).sub (List.getD [F64.fin 0, F64.fin 10] 0 F64.nan)).div
            ((List.getD [F64.fin 0, F64.fin 10] 1 F64.nan).sub
              (List.getD [F64.fin 0, F64.fin 10] 0 F64.nan))).mul
          (List.getD [F64.fin 0, F64.fin 100] 1 F64.nan)))) ∧
    (∃ v, Interpolator.interpolateN
        ⟨[F64.fin 0, F64.fin 10], [[F64.fin 0], [F64.fin 100]]⟩ (F64.fin 5) =
        .ok (List.getD [F64.fin 0, F64.fin 10] 1 F64.nan, v) ∧
      v.length = 1 ∧
      ∀ j, j < 1 → v.getD j F64.nan =
        (((F64.fin 1).sub
            (((F64.fin 5).sub (List.getD [F64.fin 0, F64.fin 10] 0 F64.nan)).div
              ((List.getD [F64.fin 0, F64.fin 10] 1 F64.nan).sub
                (List.getD [F64.fin 0, F64.fin 10] 0 F64.nan)))).mul
          ((List.getD [[F64.fin 0], [F64.fin 100]] 0 []).getD j F64.nan)).add
        ((((F64.fin 5).sub (List.getD [F64.fin 0, F64.fin 10] 0 F64.nan)).div
            ((List.getD [F64.fin 0, F64.fin 10] 1 F64.nan).sub
              (List.getD [F64.fin 0, F64.fin 10] 0 F64.nan))).mul
          ((List.getD [[F64.fin 0], [F64.fin 100]] 1 []).getD j F64.nan))) :=
  ⟨claim_c1.1 ⟨[F64.fin 0, F64.fin 10], [F64.fin 0, F64.fin 100]⟩ (F64.fin 5) 0
      (by decide) rfl rfl (by decide) (by decide) (by decide),
   claim_c1.2 ⟨[F64.fin 0, F64.fin 10], [[F64.fin 0], [F64.fin 100]]⟩ (F64.fin 5) 0 1
      (by decide) rfl (by decide) rfl (by decide) (by decide) (by decide)⟩

theorem mem_of_getElem?_some {α : Type} {l : List α} {i : Nat} {a : α}
    (h : l[i]? = some a) : a ∈ l := by
  have h2 : i < l.length := by
    by_contra hc
    rw [List.getElem?_eq_none (by omega)] at h
    exact Option.noConfusion h
  rw [List.getElem?_eq_getElem h2] at h
  rw [← Option.some_inj.mp h]
  exact List.getElem_mem h2

theorem sanity_check_pass2 {x : F64} {xs : List F64} (hne : xs ≠ [])
    (hnan : x.isNan = false)
    (hlt : x.lt (xs.getD 0 F64.nan) = false)
    (hgt : x.gt (xs.getD (xs.length - 1) F64.nan) = false) :
    sanity_check x xs = .ok () := by
  have hemp : xs.isEmpty = false := by
    cases xs with
    | nil => exact absurd rfl hne
    | cons a rest => rfl
  simp only [sanity_check, hnan, hemp, Bool.false_eq_true, if_false]
  rw [hlt, hgt]
  simp

/-- C5: for a sorted table whose `y` values all have length `m` and a
non-NaN in-bounds query, vector interpolation is equivalent to `m`
independent scalar interpolations sharing the same `x_vals`: the scalar run
on the table of `j`-th components equals the `j`-th component of the vector
run (same matched `x`, same fraction, and the same error or crash outcome),
and a successful vector result has exactly `m` components. -/
theorem claim_c5 :
    ∀ (t : Interpolator (List F64)) (x : F64) (m j : Nat),
      sortedAscB t.x_vals = true → x.isNan = false →
      (∀ y ∈ t.y_vals, y.length = m) → j < m → t.x_vals ≠ [] →
      x.lt (t.x_vals.getD 0 F64.nan) = false →
      x.gt (t.x_vals.getD (t.x_vals.length - 1) F64.nan) = false →
      (Interpolator.interpolate1
          ⟨t.x_vals, t.y_vals.map (fun y => y.getD j F64.nan)⟩ x =
        mapRR (fun p => (p.1, p.2.getD j F64.nan)) (t.interpolateN x)) ∧
      (∀ xm v, t.interpolateN x = .ok (xm, v) → v.length = m) := by
  intro t x m j hs hnan hm hj hne hltf hgtf
  have hsan : sanity_check x t.x_vals = .ok () := sanity_check_pass2 hne hnan hltf hgtf
  constructor
  · simp only [Interpolator.interpolate1, Interpolator.interpolateN, hsan]
    unfold interpolate_1d interpolate
    cases hres : binary_search_by t.x_vals x with
    | found i =>
      rcases hxe : t.x_vals[i]? with _ | xi
      · simp [hxe, mapRR]
      · rcases hye : t.y_vals[i]? with _ | yi
        · have hye2 : (t.y_vals.map (fun y => y.getD j F64.nan))[i]? = none := by
            rw [List.getElem?_map, hye]; rfl
          simp [hxe, hye, hye2, mapRR]
        · have hye2 : (t.y_vals.map (fun y => y.getD j F64.nan))[i]? =
              some (yi.getD j F64.nan) := by
            rw [List.getElem?_map, hye]; rfl
          simp [hxe, hye, hye2, mapRR]
    | notFound i =>
      by_cases hi0 : i = 0
      · subst hi0
        simp [mapRR]
      · simp only [if_neg hi0]
        rcases hx1 : t.x_vals[i-1]? with _ | prevX
        · simp [hx1, mapRR]
        · rcases hx2 : t.x_vals[i]? with _ | nextX
          · simp [hx1, hx2, mapRR]
          · rcases hy1 : t.y_vals[i-1]? with _ | prevY
            · have hy1m : (t.y_vals.map (fun y => y.getD j F64.nan))[i-1]? = none := by
                rw [List.getElem?_map, hy1]; rfl
              simp [hx1, hx2, hy1, hy1m, mapRR]
            · have hy1m : (t.y_vals.map (fun y => y.getD j F64.nan))[i-1]? =
                  some (prevY.getD j F64.nan) := by
                rw [List.getElem?_map, hy1]; rfl
              rcases hy2 : t.y_vals[i]? with _ | nextY
              · have hy2m : (t.y_vals.map (fun y => y.getD j F64.nan))[i]? = none := by
                  rw [List.getElem?_map, hy2]; rfl
                simp [hx1, hx2, hy1, hy1m, hy2, hy2m, mapRR]
              · have hy2m : (t.y_vals.map (fun y => y.getD j F64.nan))[i]? =
                    some (nextY.getD j F64.nan) := by
                  rw [List.getElem?_map, hy2]; rfl
                have hpm : prevY.length = m := hm _ (mem_of_getElem?_some hy1)
                have hnm : nextY.length = m := hm _ (mem_of_getElem?_some hy2)
                simp only [hx1, hx2, hy1, hy1m, hy2, hy2m, mapRR]
                rw [getD_zip_map (by omega) (by omega)]
  · intro xm v hok
    unfold Interpolator.interpolateN at hok
    rw [hsan] at hok
    unfold interpolate at hok
    rcases hres : binary_search_by t.x_vals x with i | i <;> rw [hres] at hok
    · rcases hxe : t.x_vals[i]? with _ | xi
      · simp [hxe] at hok
      · rcases hye : t.y_vals[i]? with _ | yi
        · simp [hxe, hye] at hok
        · simp only [hxe, hye, RunResult.ok.injEq, Prod.mk.injEq] at hok
          rw [← hok.2]
          exact hm _ (mem_of_getElem?_some hye)
    · by_cases hi0 : i = 0
      · subst hi0
        simp at hok
      · simp only [if_neg hi0] at hok
        rcases hx1 : t.x_vals[i-1]? with _ | prevX
        · simp [hx1] at hok
        · rcases hx2 : t.x_vals[i]? with _ | nextX
          · simp [hx1, hx2] at hok
          · rcases hy1 : t.y_vals[i-1]? with _ | prevY
            · simp [hx1, hx2, hy1] at hok
            · rcases hy2 : t.y_vals[i]? with _ | nextY
              · simp [hx1, hx2, hy1, hy2] at hok
              · have hpm : prevY.length = m := hm _ (mem_of_getElem?_some hy1)
                have hnm : nextY.length = m := hm _ (mem_of_getElem?_some hy2)
                simp only [hx1, hx2, hy1, hy2, RunResult.ok.injEq,
                  Prod.mk.injEq] at hok
                rw [← hok.2, List.length_map, List.length_zip, hpm, hnm]
                omega

/-- Witness for C5 on the table `x = [1, 2]`,
`y = [[10, 3], [20, 7]]` (`m = 2`), component `j = 0`, query `x = 1`. -/
theorem claim_c5_witness :
    (Interpolator.interpolate1
        ⟨[F64.fin 1, F64.fin 2],
         List.map (fun y => y.getD 0 F64.nan)
           [[F64.fin 10, F64.fin 3], [F64.fin 20, F64.fin 7]]⟩ (F64.fin 1) =
      mapRR (fun p => (p.1, p.2.getD 0 F64.nan))
        (Interpolator.interpolateN
          ⟨[F64.fin 1, F64.fin 2], [[F64.fin 10, F64.fin 3], [F64.fin 20, F64.fin 7]]⟩
          (F64.fin 1))) ∧
    List.length [F64.fin 10, F64.fin 3] = 2 :=
  ⟨(claim_c5 ⟨[F64.fin 1, F64.fin 2], [[F64.fin 10, F64.fin 3], [F64.fin 20, F64.fin 7]]⟩
      (F64.fin 1) 2 0 (by decide) rfl (by decide) (by decide) (by decide)
      (by decide) (by decide)).1,
   (claim_c5 ⟨[F64.fin 1, F64.fin 2], [[F64.fin 10, F64.fin 3], [F64.fin 20, F64.fin 7]]⟩
      (F64.fin 1) 2 0 (by decide) rfl (by decide) (by decide) (by decide)
      (by decide) (by decide)).2 (F64.fin 1) [F64.fin 10, F64.fin 3] (by decide)⟩

/-- C8 counterexample: the general in-range statement of the claim fails at
a concrete accepted input.  With the table `x_vals = [+0.0, 1.0]` (ascending)
and the non-NaN query `x = -0.0`, the IEEE bounds check passes (`-0.0 <
+0.0` is false), yet the total-order binary search returns insertion index
0, so the interpolation step's access at index `0 - 1` is out of range and
the call panics instead of staying in `1 ≤ i ≤ len-1`. -/
theorem claim_c8_counterexample :
    sortedAscB [F64.fin 0, F64.fin 1] = true ∧
    F64.negZero.isNan = false ∧
    sanity_check F64.negZero [F64.fin 0, F64.fin 1] = .ok () ∧
    binary_search_by [F64.fin 0, F64.fin 1] F64.negZero = .notFound 0 ∧
    Interpolator.interpolate1 ⟨[F64.fin 0, F64.fin 1], [F64.fin 10, F64.fin 20]⟩
      F64.negZero = .crash := by
  exact ⟨by decide, rfl, by decide, by decide, by decide⟩

/-- C8 (amended): for an ascending table and a non-NaN query that the bounds
check accepts *and* that lies within the table's range in the total order
used by the search, an unsuccessful search yields `1 ≤ i ≤ len - 1`, so the
accesses at `i-1` and `i` are in range; the in-range guarantee fails exactly
when IEEE acceptance and total order disagree: for `x = -0.0` against a
table whose first breakpoint is `+0.0`, the bounds check passes but the
search yields insertion index 0 (making the `i - 1` access out of range). -/
theorem claim_c8 :
    (∀ (xs : List F64) (x : F64) (i : Nat),
       sortedAscB xs = true → xs ≠ [] → x.isNan = false →
       F64.total_cmp (xs.getD 0 F64.nan) x ≠ .gt →
       F64.total_cmp x (xs.getD (xs.length - 1) F64.nan) ≠ .gt →
       binary_search_by xs x = .notFound i →
       1 ≤ i ∧ i ≤ xs.length - 1) ∧
    (sanity_check F64.negZero [F64.fin 0, F64.fin 1] = .ok () ∧
     binary_search_by [F64.fin 0, F64.fin 1] F64.negZero = .notFound 0) := by
  constructor
  · intro xs x i hs hne hnan hlo hhi hres
    obtain ⟨_, hnot⟩ := binary_search_spec xs x
    obtain ⟨hile, hlow, hhigh⟩ := hnot i hres
    have hlen : 0 < xs.length := List.length_pos.mpr hne
    constructor
    · by_contra hc
      have hi0 : i = 0 := by omega
      subst hi0
      exact hlo (hhigh (by omega))
    · by_contra hc
      have hi0 : i = xs.length := by omega
      subst hi0
      have h1 := hlow (by omega)
      exact hhi (tc_gt_iff.mpr h1)
  · exact ⟨by decide, by decide⟩

/-- Witness for C8 on the ascending table `[0, 2]` with the in-range query
`x = 1`, whose search yields insertion index 1. -/
theorem claim_c8_witness :
    binary_search_by [F64.fin 0, F64.fin 2] (F64.fin 1) = .notFound 1 ∧
    (1 ≤ 1 ∧ 1 ≤ List.length [F64.fin 0, F64.fin 2] - 1) :=
  ⟨by decide,
   claim_c8.1 [F64.fin 0, F64.fin 2] (F64.fin 1) 1 (by decide) (by decide) rfl
     (by decide) (by decide) (by decide)⟩

/-- C9: in the vector non-exact-match branch, when the two bracketing `y`
vectors have different lengths, `interpolate` does not fail: it returns a
result of length `min` of the two lengths, silently dropping the excess
components; while the exact-match branch returns the stored vector in full,
whatever its length. -/
theorem claim_c9 :
    (∀ (t : Interpolator (List F64)) (x : F64) (i : Nat),
       x.isNan = false → t.x_vals ≠ [] →
       x.lt (t.x_vals.getD 0 F64.nan) = false →
       x.gt (t.x_vals.getD (t.x_vals.length - 1) F64.nan) = false →
       binary_search_by t.x_vals x = .notFound i →
       i ≠ 0 → i < t.x_vals.length → i < t.y_vals.length →
       (t.y_vals.getD (i-1) []).length ≠ (t.y_vals.getD i []).length →
       ∃ v, t.interpolateN x = .ok (t.x_vals.getD i F64.nan, v) ∧
         v.length =
           min (t.y_vals.getD (i-1) []).length (t.y_vals.getD i []).length) ∧
    (∀ (t : Interpolator (List F64)) (x : F64) (i : Nat),
       x.isNan = false → t.x_vals ≠ [] →
       x.lt (t.x_vals.getD 0 F64.nan) = false →
       x.gt (t.x_vals.getD (t.x_vals.length - 1) F64.nan) = false →
       binary_search_by t.x_vals x = .found i →
       i < t.x_vals.length → i < t.y_vals.length →
       t.interpolateN x = .ok (t.x_vals.getD i F64.nan, t.y_vals.getD i [])) := by
  constructor
  · intro t x i hnan hne hltf hgtf hres hi0 hix hiy _hdiff
    have hsan := sanity_check_pass2 hne hnan hltf hgtf
    refine ⟨((t.y_vals.getD (i-1) []).zip (t.y_vals.getD i [])).map
        (fun p => (((F64.fin 1).sub
            ((x.sub (t.x_vals.getD (i-1) F64.nan)).div
              ((t.x_vals.getD i F64.nan).sub (t.x_vals.getD (i-1) F64.nan)))).mul p.1).add
          (((x.sub (t.x_vals.getD (i-1) F64.nan)).div
              ((t.x_vals.getD i F64.nan).sub (t.x_vals.getD (i-1) F64.nan))).mul p.2)),
      ?_, ?_⟩
    · unfold Interpolator.interpolateN
      rw [hsan]
      unfold interpolate
      rw [hres]
      simp only [if_neg hi0,
        getElem?_eq_some_getD F64.nan (show i - 1 < t.x_vals.length by omega),
        getElem?_eq_some_getD F64.nan hix,
        getElem?_eq_some_getD [] (show i - 1 < t.y_vals.length by omega),
        getElem?_eq_some_getD [] hiy]
    · rw [List.length_map, List.length_zip]
  · intro t x i hnan hne hltf hgtf hres hix hiy
    have hsan := sanity_check_pass2 hne hnan hltf hgtf
    unfold Interpolator.interpolateN
    rw [hsan]
    unfold interpolate
    rw [hres]
    simp only [getElem?_eq_some_getD F64.nan hix, getElem?_eq_some_getD [] hiy]

/-- Witness for C9: unsorted `x_vals = [0, 5, 2]` at the in-bounds query
`x = 2` gives insertion index 1 with bracketing vectors of lengths 2 and 1
(truncating branch), and the same query on a table where it matches exactly
returns the stored vector in full. -/
theorem claim_c9_witness :
    (∃ v, Interpolator.interpolateN
        ⟨[F64.fin 0, F64.fin 5, F64.fin 2],
         [[F64.fin 10, F64.fin 3], [F64.fin 20], [F64.fin 7]]⟩ (F64.fin 2) =
        .ok (List.getD [F64.fin 0, F64.fin 5, F64.fin 2] 1 F64.nan, v) ∧
      v.length =
        min (List.getD [[F64.fin 10, F64.fin 3], [F64.fin 20], [F64.fin 7]] 0 []).length
          (List.getD [[F64.fin 10, F64.fin 3], [F64.fin 20], [F64.fin 7]] 1 []).length) ∧
    Interpolator.interpolateN
        ⟨[F64.fin 1, F64.fin 2], [[F64.fin 10], [F64.fin 20, F64.fin 30]]⟩ (F64.fin 2) =
      .ok (List.getD [F64.fin 1, F64.fin 2] 1 F64.nan,
        List.getD [[F64.fin 10], [F64.fin 20, F64.fin 30]] 1 []) :=
  ⟨claim_c9.1 ⟨[F64.fin 0, F64.fin 5, F64.fin 2],
      [[F64.fin 10, F64.fin 3], [F64.fin 20], [F64.fin 7]]⟩ (F64.fin 2) 1
      rfl (by decide) (by decide) (by decide) (by decide) (by decide)
      (by decide) (by decide) (by decide),
   claim_c9.2 ⟨[F64.fin 1, F64.fin 2], [[F64.fin 10], [F64.fin 20, F64.fin 30]]⟩
      (F64.fin 2) 1 rfl (by decide) (by decide) (by decide) (by decide)
      (by decide) (by decide)⟩
